import Mathlib

/-!
Verification of the Kotlin structural parser of the emerge analysis suite.

The development embeds the extraction routines of
`emerge/languages/kotlinparser.py`: keyword-anchored read-ahead scanning for
package names, imports and inheritance edges, the entity import propagation
heuristic, unique-name construction and the results mapping. Token streams
are lists of strings; the pyparsing expressions built in the source are
modelled character by character on the read-ahead strings they are applied
to. Statistics counters (PARSING_HITS and PARSING_MISSES) are carried in the
scan states.
-/

/-- Characters matched by the pyparsing class `alphanums`: ASCII letters and
digits. -/
def isAlnumChar (c : Char) : Bool := c.isAlpha || c.isDigit

/-- Characters the pyparsing `Keyword` class treats as identifier characters
(its default `identChars`). -/
def isIdentChar (c : Char) : Bool := isAlnumChar c || c = '_' || c = '$'

/-- Whitespace skipping performed by pyparsing before each expression
element. -/
def skipWs (s : List Char) : List Char := s.dropWhile (fun c => c.isWhitespace)

/-- Model of a pyparsing `Keyword`: the literal must start the input and must
not be followed by an identifier character. Every call site below applies it
at a whitespace boundary, where the preceding-character check of the library
passes. -/
def kwMatch (kw : List Char) (s : List Char) : Option (List Char) :=
  if kw.isPrefixOf s then
    match s.drop kw.length with
    | [] => some []
    | c :: rest => if isIdentChar c then none else some (c :: rest)
  else none

/-- Model of a pyparsing `Word`: a maximal nonempty run of allowed characters;
the match fails when the first character is not allowed. -/
def wordMatch (allowed : Char → Bool) (s : List Char) : Option (List Char × List Char) :=
  match s.takeWhile allowed with
  | [] => none
  | c :: run => some (c :: run, s.drop (c :: run).length)

/-- Character class of the import path capture: alphanumerics, dots and the
asterisk wildcard. -/
def importPathChar (c : Char) : Bool := isAlnumChar c || c = '.' || c = '*'

/-- Character class of the package path capture: alphanumerics and dots. -/
def packagePathChar (c : Char) : Bool := isAlnumChar c || c = '.'

/-- The scope-opening delimiter of the entity grammar. -/
def openScopeChar : Char := Char.ofNat 123

/-- Model of the pyparsing expression built in `_add_imports_to_result`:
keyword `import` followed by a word of import path characters; returns the
captured import path on success. -/
def parseImportExpr (s : List Char) : Option String :=
  match kwMatch "import".toList (skipWs s) with
  | none => none
  | some r1 =>
    match wordMatch importPathChar (skipWs r1) with
    | none => none
    | some (cap, _) => some (String.mk cap)

/-- Model of the pyparsing expression built in `_add_package_name_to_result`:
keyword `package` followed by a word of package path characters. -/
def parsePackageExpr (s : List Char) : Option String :=
  match kwMatch "package".toList (skipWs s) with
  | none => none
  | some r1 =>
    match wordMatch packagePathChar (skipWs r1) with
    | none => none
    | some (cap, _) => some (String.mk cap)

/-- Model of the pyparsing expression built in `_add_inheritance_to_entity_result`:
keyword `class`, an alphanumeric entity name, an optional colon clause with an
alphanumeric inherited name (the optional group backtracks when it fails), and
a skip that succeeds only when the scope-opening delimiter occurs in the rest
of the window. Returns the entity name and the optional inherited name. -/
def parseEntityExpr (s : List Char) : Option (String × Option String) :=
  match kwMatch "class".toList (skipWs s) with
  | none => none
  | some r1 =>
    match wordMatch isAlnumChar (skipWs r1) with
    | none => none
    | some (ename, r2) =>
      let step :=
        match kwMatch [':'] (skipWs r2) with
        | some rc =>
          match wordMatch isAlnumChar (skipWs rc) with
          | some (iname, r3) => (some (String.mk iname), r3)
          | none => (none, r2)
        | none => (none, r2)
      if (step.2).any (fun c => c = openScopeChar) then
        some (String.mk ename, step.1)
      else none

/-- Maximum number of following tokens included in one read-ahead window, the
shared configuration constant of the parser family. -/
def maxReadAheadTokens : Nat := 30

/-- Modelled from the spec: `create_read_ahead_string` (defined outside this
file, in the shared parsing mixin) concatenates the anchor token with up to
`maxReadAheadTokens` following tokens into one whitespace-separated string. -/
def createReadAheadString (obj : String) (following : List String) : String :=
  String.intercalate " " (obj :: following.take maxReadAheadTokens)

/-- Modelled from the spec: the read-ahead generator `_gen_word_read_ahead`
(defined outside this file, in the shared parsing mixin) yields for every
position of the token list the token at that position together with the list
of remaining tokens after it. -/
def windows : List String → List (String × List String)
  | [] => []
  | t :: rest => (t, rest) :: windows rest

/-- State of the import extraction loop: the scanned import dependencies of
the file result plus the two statistics counters, measured from zero. -/
structure ImportScanState where
  imports : List String
  hits : Nat
  misses : Nat
  deriving DecidableEq

/-- One iteration of the loop of `_add_imports_to_result` at one read-ahead
window: at an `import` anchor the grammar is attempted; a failure is counted
as a miss and scanning continues; a success is counted as a hit and the
captured dependency is appended unless the ignore predicate holds for it. -/
def importStep (ignore : String → Bool) (st : ImportScanState) (w : String × List String) :
    ImportScanState :=
  if w.1 = "import" then
    match parseImportExpr (createReadAheadString w.1 w.2).toList with
    | none => { st with misses := st.misses + 1 }
    | some dependency =>
      if ignore dependency then
        { st with hits := st.hits + 1 }
      else
        { st with hits := st.hits + 1, imports := st.imports ++ [dependency] }
  else st

/-- Model of `_add_imports_to_result`: fold the import step over every
read-ahead window of the comment-filtered token list. -/
def addImportsToResult (tokens : List String) (ignore : String → Bool) : ImportScanState :=
  (windows tokens).foldl (importStep ignore) ⟨[], 0, 0⟩

/-- State of the package extraction loop: the module name of the result (the
empty string before any match) plus the two statistics counters. -/
structure PackageScanState where
  moduleName : String
  hits : Nat
  misses : Nat
  deriving DecidableEq

/-- One iteration of the loop of `_add_package_name_to_result` at one
read-ahead window: at a `package` anchor the grammar is attempted; a failure
is counted as a miss; a success assigns the captured path to the module name
and is counted as a hit, and scanning continues. -/
def packageStep (st : PackageScanState) (w : String × List String) : PackageScanState :=
  if w.1 = "package" then
    match parsePackageExpr (createReadAheadString w.1 w.2).toList with
    | none => { st with misses := st.misses + 1 }
    | some name => { st with moduleName := name, hits := st.hits + 1 }
  else st

/-- Model of `_add_package_name_to_result`: fold the package step over every
read-ahead window of the comment-filtered token list, starting from the empty
module name the file result is created with. -/
def addPackageNameToResult (tokens : List String) : PackageScanState :=
  (windows tokens).foldl packageStep ⟨"", 0, 0⟩

/-- State of the inheritance extraction loop: the scanned inheritance
dependencies of the entity result plus the two statistics counters. -/
structure InheritanceScanState where
  deps : List String
  hits : Nat
  misses : Nat
  deriving DecidableEq

/-- One iteration of the loop of `_add_inheritance_to_entity_result` at one
read-ahead window: only `class` anchors are attempted; a failure is counted as
a miss; a success is counted as a hit and appends the inherited name only when
the optional inherited capture is present (and hence nonempty); a success
without the capture changes nothing. -/
def inheritanceStep (st : InheritanceScanState) (w : String × List String) :
    InheritanceScanState :=
  if w.1 = "class" then
    match parseEntityExpr (createReadAheadString w.1 w.2).toList with
    | none => { st with misses := st.misses + 1 }
    | some (_, some inherited) =>
      { st with hits := st.hits + 1, deps := st.deps ++ [inherited] }
    | some (_, none) => st
  else st

/-- Model of `_add_inheritance_to_entity_result`: fold the inheritance step
over every read-ahead window of the entity token slice. -/
def addInheritanceToEntityResult (tokens : List String) : InheritanceScanState :=
  (windows tokens).foldl inheritanceStep ⟨[], 0, 0⟩

/-- Substring containment modelling the Python `in` operator on strings: the
needle occurs as a contiguous subsequence of the haystack. -/
def containsSub (hay needle : List Char) : Bool :=
  match hay with
  | [] => needle.isEmpty
  | c :: t => needle.isPrefixOf (c :: t) || containsSub t needle

/-- Last dot-separated component of an import path, as computed by splitting
on dots and taking the last part. -/
def lastComponent (s : String) : String := (s.splitOn ".").getLastD ""

/-- Token test of the propagation heuristic: the last component of the import
path occurs as a substring of the token. -/
def tokenMatchesImport (imp tok : String) : Bool :=
  containsSub tok.toList (lastComponent imp).toList

/-- Inner loop of `_add_imports_to_entity_result` for one parent import: scan
every token of the entity token slice and append the import on a substring
match when it is not already present in the entity import list. -/
def entityImportStep (entityTokens : List String) (acc : List String) (imp : String) :
    List String :=
  entityTokens.foldl
    (fun acc2 tok =>
      if tokenMatchesImport imp tok && !(acc2.contains imp) then acc2 ++ [imp] else acc2)
    acc

/-- Model of `_add_imports_to_entity_result`: propagate each import of the
parent file result, in order, into the entity import list by the substring
heuristic. -/
def addImportsToEntityResult (parentImports entityTokens acc : List String) : List String :=
  parentImports.foldl (entityImportStep entityTokens) acc

/-- Model of `create_unique_entity_name`: the qualified name when the module
name is a nonempty string, else the bare entity name. -/
def createUniqueEntityName (moduleName entityName : String) : String :=
  if moduleName ≠ "" then moduleName ++ "." ++ entityName else entityName

/-- Model of the dictionary assignment on the results mapping: an existing key
has its value replaced in place, a new key is appended at the end; no
collision detection happens. -/
def resultsInsert {V : Type} (m : List (String × V)) (k : String) (v : V) :
    List (String × V) :=
  if m.any (fun p => p.1 == k) then
    m.map (fun p => if p.1 == k then (k, v) else p)
  else
    m ++ [(k, v)]

/-- Import anchors of a token list: windows whose token is the `import`
keyword; each one is one attempted structural match. -/
def importAttemptB (w : String × List String) : Bool :=
  if w.1 = "import" then true else false

/-- Windows where the import grammar attempt succeeds. -/
def importSuccessB (w : String × List String) : Bool :=
  if w.1 = "import" then (parseImportExpr (createReadAheadString w.1 w.2).toList).isSome
  else false

/-- Windows where the import grammar attempt fails. -/
def importMissB (w : String × List String) : Bool :=
  if w.1 = "import" then (parseImportExpr (createReadAheadString w.1 w.2).toList).isNone
  else false

/-- The dependency recorded at one window of the import scan, if any:
a successful capture that the ignore predicate does not drop. -/
def importCapture (ignore : String → Bool) (w : String × List String) : Option String :=
  if w.1 = "import" then
    match parseImportExpr (createReadAheadString w.1 w.2).toList with
    | some dependency => if ignore dependency then none else some dependency
    | none => none
  else none

/-- Package anchors of a token list. -/
def packageAttemptB (w : String × List String) : Bool :=
  if w.1 = "package" then true else false

/-- Windows where the package grammar attempt succeeds. -/
def packageSuccessB (w : String × List String) : Bool :=
  if w.1 = "package" then (parsePackageExpr (createReadAheadString w.1 w.2).toList).isSome
  else false

/-- Windows where the package grammar attempt fails. -/
def packageMissB (w : String × List String) : Bool :=
  if w.1 = "package" then (parsePackageExpr (createReadAheadString w.1 w.2).toList).isNone
  else false

/-- The package path captured at one window of the package scan, if any. -/
def packageCapture (w : String × List String) : Option String :=
  if w.1 = "package" then parsePackageExpr (createReadAheadString w.1 w.2).toList
  else none

/-- Inheritance anchors of an entity token slice: windows whose token is the
`class` keyword; each one is one attempted structural match. -/
def inheritanceAttemptB (w : String × List String) : Bool :=
  if w.1 = "class" then true else false

/-- Windows where the entity grammar attempt fails. -/
def inheritanceMissB (w : String × List String) : Bool :=
  if w.1 = "class" then (parseEntityExpr (createReadAheadString w.1 w.2).toList).isNone
  else false

/-- The inherited name recorded at one window of the inheritance scan, if
any: a successful match whose optional inherited capture is present. -/
def inheritanceCapture (w : String × List String) : Option String :=
  if w.1 = "class" then
    match parseEntityExpr (createReadAheadString w.1 w.2).toList with
    | some (_, some inherited) => some inherited
    | _ => none
  else none

/-- Windows where the entity grammar attempt succeeds with an inherited
capture, the only case the inheritance scan counts as a hit. -/
def inheritanceHitB (w : String × List String) : Bool :=
  (inheritanceCapture w).isSome

/-- Result of assigning every element of the list in order to a variable that
starts at the default: the last element when the list is nonempty, the
default otherwise. -/
def lastCaptureD : List String → String → String
  | [], d => d
  | c :: rest, _ => lastCaptureD rest c

/-- Modelled from the spec: the entity grammar as the spec states it, with the
keyword alternation of `class` and `object` (the expression the scope-based
entity discovery builds); stated here to compare the spec wording against the
inheritance extraction, whose own expression anchors on `class` only. -/
def parseEntityExprSpec (s : List Char) : Option (String × Option String) :=
  match (match kwMatch "class".toList (skipWs s) with
         | some r0 => some r0
         | none => kwMatch "object".toList (skipWs s)) with
  | none => none
  | some r1 =>
    match wordMatch isAlnumChar (skipWs r1) with
    | none => none
    | some (ename, r2) =>
      let step :=
        match kwMatch [':'] (skipWs r2) with
        | some rc =>
          match wordMatch isAlnumChar (skipWs rc) with
          | some (iname, r3) => (some (String.mk iname), r3)
          | none => (none, r2)
        | none => (none, r2)
      if (step.2).any (fun c => c = openScopeChar) then
        some (String.mk ename, step.1)
      else none

/-- Splitting a token list splits its read-ahead windows: the windows of the
first part see extended following tokens, the windows of the second part are
unchanged. -/
theorem windows_append (pre post : List String) :
    windows (pre ++ post) =
      (windows pre).map (fun w => (w.1, w.2 ++ post)) ++ windows post := by
  induction pre with
  | nil => simp [windows]
  | cons t rest ih => simp [windows, ih]

/-- Characterization of the import scan fold: the recorded imports are the
non-ignored captures of the windows in order, hits count the successful
attempts and misses count the failed attempts. -/
theorem importScan_foldl (ignore : String → Bool) (ws : List (String × List String))
    (st : ImportScanState) :
    ws.foldl (importStep ignore) st =
      ⟨st.imports ++ ws.filterMap (importCapture ignore),
       st.hits + ws.countP importSuccessB,
       st.misses + ws.countP importMissB⟩ := by
  induction ws generalizing st with
  | nil => simp
  | cons w ws ih =>
    obtain ⟨t, fol⟩ := w
    rw [List.foldl_cons, ih]
    by_cases hw : t = "import"
    · subst hw
      rcases hp : parseImportExpr (createReadAheadString "import" fol).data with _ | dep
      · simp [importStep, importCapture, importSuccessB, importMissB, hp, List.countP_cons]
        all_goals omega
      · by_cases hig : ignore dep = true
        · simp [importStep, importCapture, importSuccessB, importMissB, hp, hig,
            List.countP_cons]
          all_goals omega
        · simp [importStep, importCapture, importSuccessB, importMissB, hp, hig,
            List.countP_cons]
          all_goals omega
    · simp [importStep, importCapture, importSuccessB, importMissB, hw, List.countP_cons]

/-- Characterization of the package scan fold: the final module name is the
last successful capture (the starting module name when there is none), hits
count the successful attempts and misses count the failed attempts. -/
theorem packageScan_foldl (ws : List (String × List String)) (st : PackageScanState) :
    ws.foldl packageStep st =
      ⟨lastCaptureD (ws.filterMap packageCapture) st.moduleName,
       st.hits + ws.countP packageSuccessB,
       st.misses + ws.countP packageMissB⟩ := by
  induction ws generalizing st with
  | nil => simp [lastCaptureD]
  | cons w ws ih =>
    obtain ⟨t, fol⟩ := w
    rw [List.foldl_cons, ih]
    by_cases hw : t = "package"
    · subst hw
      rcases hp : parsePackageExpr (createReadAheadString "package" fol).data with _ | name
      · simp [packageStep, packageCapture, packageSuccessB, packageMissB, hp,
          List.countP_cons]
        all_goals omega
      · simp [packageStep, packageCapture, packageSuccessB, packageMissB, hp,
          List.countP_cons, lastCaptureD]
        all_goals omega
    · simp [packageStep, packageCapture, packageSuccessB, packageMissB, hw, List.countP_cons]

/-- Characterization of the inheritance scan fold: the recorded inheritance
dependencies are the inherited captures of the windows in order, hits count
only the successful attempts that carry an inherited capture, and misses
count the failed attempts. -/
theorem inheritanceScan_foldl (ws : List (String × List String))
    (st : InheritanceScanState) :
    ws.foldl inheritanceStep st =
      ⟨st.deps ++ ws.filterMap inheritanceCapture,
       st.hits + ws.countP inheritanceHitB,
       st.misses + ws.countP inheritanceMissB⟩ := by
  induction ws generalizing st with
  | nil => simp
  | cons w ws ih =>
    obtain ⟨t, fol⟩ := w
    rw [List.foldl_cons, ih]
    by_cases hw : t = "class"
    · subst hw
      rcases hp : parseEntityExpr (createReadAheadString "class" fol).data with _ | ⟨e, _ | i⟩
      · simp [inheritanceStep, inheritanceCapture, inheritanceHitB, inheritanceMissB, hp,
          List.countP_cons]
        all_goals omega
      · simp [inheritanceStep, inheritanceCapture, inheritanceHitB, inheritanceMissB, hp,
          List.countP_cons]
      · simp [inheritanceStep, inheritanceCapture, inheritanceHitB, inheritanceMissB, hp,
          List.countP_cons]
        all_goals omega
    · simp [inheritanceStep, inheritanceCapture, inheritanceHitB, inheritanceMissB, hw,
        List.countP_cons]

/-- The inner propagation loop for one parent import appends the import once
at the end when some entity token matches it and it is not yet present, and
otherwise leaves the accumulator unchanged. -/
theorem entityImportStep_eq (entityTokens : List String) (imp : String) :
    ∀ acc, entityImportStep entityTokens acc imp =
      if entityTokens.any (fun tok => tokenMatchesImport imp tok) && !(acc.contains imp)
      then acc ++ [imp] else acc := by
  induction entityTokens with
  | nil => intro acc; simp [entityImportStep]
  | cons tok rest ih =>
    intro acc
    have h1 : entityImportStep (tok :: rest) acc imp
        = entityImportStep rest
            (if tokenMatchesImport imp tok && !(acc.contains imp) then acc ++ [imp] else acc)
            imp := by
      simp only [entityImportStep, List.foldl_cons]
    rw [h1, ih]
    by_cases hm : imp ∈ acc
    · simp [hm]
    · by_cases ht : tokenMatchesImport imp tok = true
      · simp [hm, ht]
      · simp [hm, ht]

/-- Decomposition of the entity import propagation: the produced list is the
starting accumulator followed by a duplicate-free sublist of the parent
file import list all of whose elements are new. -/
theorem addImportsToEntityResult_decomp (entityTokens : List String) :
    ∀ (parentImports acc : List String),
      ∃ t, addImportsToEntityResult parentImports entityTokens acc = acc ++ t ∧
        t.Sublist parentImports ∧ t.Nodup ∧ ∀ x ∈ t, x ∉ acc := by
  intro parentImports
  induction parentImports with
  | nil =>
    intro acc
    exact ⟨[], by simp [addImportsToEntityResult], List.nil_sublist _, List.nodup_nil, by simp⟩
  | cons imp rest ih =>
    intro acc
    have h0 : addImportsToEntityResult (imp :: rest) entityTokens acc
        = addImportsToEntityResult rest entityTokens (entityImportStep entityTokens acc imp) :=
      rfl
    rw [h0, entityImportStep_eq]
    by_cases hc : (entityTokens.any (fun tok => tokenMatchesImport imp tok)
        && !(acc.contains imp)) = true
    · rw [if_pos hc]
      obtain ⟨t, h1, h2, h3, h4⟩ := ih (acc ++ [imp])
      have hm : imp ∉ acc := by
        intro hmem
        simp [hmem] at hc
      refine ⟨imp :: t, ?_, h2.cons₂ imp, ?_, ?_⟩
      · rw [h1]; simp
      · exact List.nodup_cons.mpr ⟨fun hin => (h4 imp hin) (by simp), h3⟩
      · intro x hx
        rcases List.mem_cons.mp hx with rfl | hx2
        · exact hm
        · intro hxa
          exact (h4 x hx2) (by simp [hxa])
    · rw [if_neg hc]
      obtain ⟨t, h1, h2, h3, h4⟩ := ih acc
      exact ⟨t, h1, h2.cons imp, h3, h4⟩

/-- Membership in the propagated entity import list: an import ends up in the
list exactly when it was already there, or it occurs in the parent import
list and some token of the entity slice matches it. -/
theorem addImportsToEntityResult_mem (entityTokens : List String) :
    ∀ (parentImports acc : List String) (s : String),
      s ∈ addImportsToEntityResult parentImports entityTokens acc ↔
        s ∈ acc ∨ (s ∈ parentImports ∧
          entityTokens.any (fun tok => tokenMatchesImport s tok) = true) := by
  intro parentImports
  induction parentImports with
  | nil => intro acc s; simp [addImportsToEntityResult]
  | cons imp rest ih =>
    intro acc s
    have h0 : addImportsToEntityResult (imp :: rest) entityTokens acc
        = addImportsToEntityResult rest entityTokens (entityImportStep entityTokens acc imp) :=
      rfl
    rw [h0, entityImportStep_eq]
    by_cases hc : (entityTokens.any (fun tok => tokenMatchesImport imp tok)
        && !(acc.contains imp)) = true
    · rw [if_pos hc, ih]
      have hany : entityTokens.any (fun tok => tokenMatchesImport imp tok) = true := by
        cases h1 : entityTokens.any (fun tok => tokenMatchesImport imp tok)
        · simp [h1] at hc
        · rfl
      constructor
      · rintro (hs | ⟨hs1, hs2⟩)
        · rcases List.mem_append.mp hs with h | h
          · exact Or.inl h
          · have hsi : s = imp := by simpa using h
            subst hsi
            exact Or.inr ⟨List.mem_cons_self _ _, hany⟩
        · exact Or.inr ⟨List.mem_cons_of_mem _ hs1, hs2⟩
      · rintro (hs | ⟨hs1, hs2⟩)
        · exact Or.inl (List.mem_append_left _ hs)
        · rcases List.mem_cons.mp hs1 with rfl | h
          · exact Or.inl (List.mem_append_right _ (by simp))
          · exact Or.inr ⟨h, hs2⟩
    · rw [if_neg hc, ih]
      constructor
      · rintro (hs | ⟨hs1, hs2⟩)
        · exact Or.inl hs
        · exact Or.inr ⟨List.mem_cons_of_mem _ hs1, hs2⟩
      · rintro (hs | ⟨hs1, hs2⟩)
        · exact Or.inl hs
        · rcases List.mem_cons.mp hs1 with rfl | h
          · by_cases hmem : s ∈ acc
            · exact Or.inl hmem
            · exact absurd (by simp [hs2, hmem]) hc
          · exact Or.inr ⟨h, hs2⟩

/-- At every window the import attempt outcome is exclusive and exhaustive:
successes and failures add up to the attempted anchors. -/
theorem import_attempt_split (ws : List (String × List String)) :
    ws.countP importSuccessB + ws.countP importMissB = ws.countP importAttemptB := by
  induction ws with
  | nil => rfl
  | cons w ws ih =>
    obtain ⟨t, fol⟩ := w
    by_cases hw : t = "import"
    · subst hw
      rcases hp : parseImportExpr (createReadAheadString "import" fol).data with _ | dep
      · simp [importSuccessB, importMissB, importAttemptB, hp, List.countP_cons]
        omega
      · simp [importSuccessB, importMissB, importAttemptB, hp, List.countP_cons]
        omega
    · simp [importSuccessB, importMissB, importAttemptB, hw, List.countP_cons]
      omega

/-- At every window the package attempt outcome is exclusive and exhaustive:
successes and failures add up to the attempted anchors. -/
theorem package_attempt_split (ws : List (String × List String)) :
    ws.countP packageSuccessB + ws.countP packageMissB = ws.countP packageAttemptB := by
  induction ws with
  | nil => rfl
  | cons w ws ih =>
    obtain ⟨t, fol⟩ := w
    by_cases hw : t = "package"
    · subst hw
      rcases hp : parsePackageExpr (createReadAheadString "package" fol).data with _ | name
      · simp [packageSuccessB, packageMissB, packageAttemptB, hp, List.countP_cons]
        omega
      · simp [packageSuccessB, packageMissB, packageAttemptB, hp, List.countP_cons]
        omega
    · simp [packageSuccessB, packageMissB, packageAttemptB, hw, List.countP_cons]
      omega

/-- Inheritance attempts are only bounded: hits with an inherited capture and
misses never exceed the attempted anchors, but need not add up to them. -/
theorem inheritance_attempt_bound (ws : List (String × List String)) :
    ws.countP inheritanceHitB + ws.countP inheritanceMissB ≤ ws.countP inheritanceAttemptB := by
  induction ws with
  | nil => exact Nat.le_refl 0
  | cons w ws ih =>
    obtain ⟨t, fol⟩ := w
    by_cases hw : t = "class"
    · subst hw
      rcases hp : parseEntityExpr (createReadAheadString "class" fol).data with _ | ⟨e, _ | i⟩
      · simp [inheritanceHitB, inheritanceCapture, inheritanceMissB, inheritanceAttemptB, hp,
          List.countP_cons]
        omega
      · simp [inheritanceHitB, inheritanceCapture, inheritanceMissB, inheritanceAttemptB, hp,
          List.countP_cons]
        omega
      · simp [inheritanceHitB, inheritanceCapture, inheritanceMissB, inheritanceAttemptB, hp,
          List.countP_cons]
        omega
    · simp [inheritanceHitB, inheritanceCapture, inheritanceMissB, inheritanceAttemptB, hw,
        List.countP_cons]
      omega

/-- Counting one value among the kept captures counts the windows that
capture it. -/
theorem count_filterMap {α β : Type} [DecidableEq β] [BEq β] [LawfulBEq β]
    (f : α → Option β) (l : List α) (b : β) :
    (l.filterMap f).count b = l.countP (fun a => f a == some b) := by
  induction l with
  | nil => rfl
  | cons a l ih =>
    rcases hf : f a with _ | c
    · simp [hf, List.countP_cons, ih]
    · by_cases hc : c = b
      · subst hc
        simp [hf, List.countP_cons, ih, List.count_cons]
      · simp [hf, List.countP_cons, ih, List.count_cons, hc]

/-- Successful package captures counted as hits are exactly the kept
captures. -/
theorem package_hits_eq_captures (ws : List (String × List String)) :
    ws.countP packageSuccessB = (ws.filterMap packageCapture).length := by
  induction ws with
  | nil => rfl
  | cons w ws ih =>
    obtain ⟨t, fol⟩ := w
    by_cases hw : t = "package"
    · subst hw
      rcases hp : parsePackageExpr (createReadAheadString "package" fol).data with _ | name
      · simp [packageSuccessB, packageCapture, hp, List.countP_cons, ih]
      · simp [packageSuccessB, packageCapture, hp, List.countP_cons, ih]
    · simp [packageSuccessB, packageCapture, hw, List.countP_cons, ih]

/-- A capture kept by the import scan is never one the ignore predicate
holds for. -/
theorem importCapture_not_ignored (ignore : String → Bool) (w : String × List String)
    (d : String) (h : importCapture ignore w = some d) : ignore d = false := by
  unfold importCapture at h
  by_cases hw : w.1 = "import"
  · rw [if_pos hw] at h
    rcases hp : parseImportExpr (createReadAheadString w.1 w.2).toList with _ | dep
    · rw [hp] at h
      exact absurd h (by simp)
    · rw [hp] at h
      by_cases hig : ignore dep = true
      · simp [hig] at h
      · simp [hig] at h
        subst h
        cases hb : ignore dep
        · rfl
        · exact absurd hb hig
  · rw [if_neg hw] at h
    exact absurd h (by simp)

/-- Filtering for one key commutes with the in-place replacement the results
mapping performs on that key. -/
theorem filter_map_replace {V : Type} (m : List (String × V)) (k : String) (v : V) :
    (m.map (fun p => if p.1 == k then (k, v) else p)).filter (fun p => p.1 == k)
      = (m.filter (fun p => p.1 == k)).map (fun _ => (k, v)) := by
  induction m with
  | nil => rfl
  | cons p m ih =>
    by_cases hp : p.1 = k
    · simp [hp]
      simpa using ih
    · simp [hp]
      simpa using ih

/-- One insertion into the results mapping: when the key occupies at most one
entry beforehand, it occupies exactly the new entry afterwards. -/
theorem resultsInsert_filter {V : Type} (m : List (String × V)) (k : String) (v : V)
    (h : m.countP (fun p => p.1 == k) ≤ 1) :
    (resultsInsert m k v).filter (fun p => p.1 == k) = [(k, v)] ∧
    (resultsInsert m k v).countP (fun p => p.1 == k) ≤ 1 := by
  unfold resultsInsert
  by_cases hany : m.any (fun p => p.1 == k) = true
  · rw [if_pos hany]
    have hone : m.countP (fun p => p.1 == k) = 1 := by
      have hge : 0 < m.countP (fun p => p.1 == k) := by
        rcases List.any_eq_true.mp hany with ⟨p, hpmem, hpk⟩
        exact List.countP_pos_iff.mpr ⟨p, hpmem, hpk⟩
      omega
    have hlen : (m.filter (fun p => p.1 == k)).length = 1 := by
      rw [← List.countP_eq_length_filter]
      exact hone
    rcases List.length_eq_one.mp hlen with ⟨a, ha⟩
    constructor
    · rw [filter_map_replace, ha]
      rfl
    · rw [List.countP_eq_length_filter, filter_map_replace, ha]
      simp
  · rw [if_neg hany]
    have hnone : ∀ p ∈ m, ¬(p.1 == k) = true := by
      intro p hp hpk
      exact hany (List.any_eq_true.mpr ⟨p, hp, hpk⟩)
    have hfil : m.filter (fun p => p.1 == k) = [] := by
      rw [List.filter_eq_nil_iff]
      exact hnone
    constructor
    · rw [List.filter_append, hfil]
      simp
    · rw [List.countP_append, List.countP_eq_length_filter, hfil]
      simp [List.countP_cons]

/-- Claim C1 (counterexample): on the token slice of `class Bar { }` the
inheritance extraction reaches exactly one attempted structural match, the
attempt succeeds, yet neither PARSING_HITS nor PARSING_MISSES changes — so an
attempted match can leave both counters unchanged, contrary to the claim. -/
theorem claim1_counters_counterexample :
    (windows ["class", "Bar", "\x7b", "\x7d"]).countP inheritanceAttemptB = 1 ∧
    (parseEntityExpr (createReadAheadString "class" ["Bar", "\x7b", "\x7d"]).toList).isSome
      = true ∧
    addInheritanceToEntityResult ["class", "Bar", "\x7b", "\x7d"]
      = ⟨[], 0, 0⟩ := by
  refine ⟨by decide, by decide, by decide⟩

/-- Claim C1 (amended): package and import extraction increment exactly one
counter per attempted match — hits count the successful attempts, misses the
failed ones, and together they exhaust the attempts; inheritance extraction
counts every failure as a miss but counts a hit only for a success that
carries an inherited capture, so a successful inheritance match without a
colon clause leaves both counters unchanged and the two counters only bound
the attempts from below. -/
theorem claim1_counters_amended (tokens : List String) (ignore : String → Bool) :
    ((addImportsToResult tokens ignore).hits = (windows tokens).countP importSuccessB ∧
     (addImportsToResult tokens ignore).misses = (windows tokens).countP importMissB ∧
     (windows tokens).countP importSuccessB + (windows tokens).countP importMissB
       = (windows tokens).countP importAttemptB) ∧
    ((addPackageNameToResult tokens).hits = (windows tokens).countP packageSuccessB ∧
     (addPackageNameToResult tokens).misses = (windows tokens).countP packageMissB ∧
     (windows tokens).countP packageSuccessB + (windows tokens).countP packageMissB
       = (windows tokens).countP packageAttemptB) ∧
    ((addInheritanceToEntityResult tokens).hits = (windows tokens).countP inheritanceHitB ∧
     (addInheritanceToEntityResult tokens).misses = (windows tokens).countP inheritanceMissB ∧
     (windows tokens).countP inheritanceHitB + (windows tokens).countP inheritanceMissB
       ≤ (windows tokens).countP inheritanceAttemptB) := by
  refine ⟨⟨?_, ?_, import_attempt_split _⟩, ⟨?_, ?_, package_attempt_split _⟩,
    ⟨?_, ?_, inheritance_attempt_bound _⟩⟩
  · show ((windows tokens).foldl (importStep ignore) ⟨[], 0, 0⟩).hits = _
    rw [importScan_foldl]
    simp
  · show ((windows tokens).foldl (importStep ignore) ⟨[], 0, 0⟩).misses = _
    rw [importScan_foldl]
    simp
  · show ((windows tokens).foldl packageStep ⟨"", 0, 0⟩).hits = _
    rw [packageScan_foldl]
    simp
  · show ((windows tokens).foldl packageStep ⟨"", 0, 0⟩).misses = _
    rw [packageScan_foldl]
    simp
  · show ((windows tokens).foldl inheritanceStep ⟨[], 0, 0⟩).hits = _
    rw [inheritanceScan_foldl]
    simp
  · show ((windows tokens).foldl inheritanceStep ⟨[], 0, 0⟩).misses = _
    rw [inheritanceScan_foldl]
    simp

/-- Claim C2: an import of the parent file result is propagated into the
entity import list exactly when some token of the entity token slice contains
its last dot-separated component as a substring, and every import is appended
at most once because membership is checked before each insertion. -/
theorem claim2_entity_import_membership (parentImports entityTokens : List String)
    (s : String) :
    (s ∈ addImportsToEntityResult parentImports entityTokens [] ↔
      s ∈ parentImports ∧
        entityTokens.any (fun tok => tokenMatchesImport s tok) = true) ∧
    (addImportsToEntityResult parentImports entityTokens []).count s ≤ 1 := by
  constructor
  · simpa using addImportsToEntityResult_mem entityTokens parentImports [] s
  · obtain ⟨t, h1, _, h3, _⟩ := addImportsToEntityResult_decomp entityTokens parentImports []
    rw [h1]
    simp only [List.nil_append]
    exact List.nodup_iff_count_le_one.mp h3 s

/-- Claim C3 (counterexample): the token slice of `object Foo : Base { }`
matches the entity grammar of the spec (keyword `class` or `object`, name,
colon clause, nonempty inherited name, scope opener in the window), yet the
inheritance extraction appends no edge at all, because its own expression and
anchor test use only the `class` keyword. -/
theorem claim3_inheritance_counterexample :
    parseEntityExprSpec
        (createReadAheadString "object" ["Foo", ":", "Base", "\x7b", "\x7d"]).toList
      = some ("Foo", some "Base") ∧
    addInheritanceToEntityResult ["object", "Foo", ":", "Base", "\x7b", "\x7d"]
      = ⟨[], 0, 0⟩ := by
  refine ⟨by decide, by decide⟩

/-- Claim C3 (amended): only `class` anchors are scanned for inheritance: the
recorded inheritance dependencies are exactly the inherited captures at the
`class` anchors in order — one edge per matching declaration occurrence with
a nonempty inherited capture, none otherwise — and in particular the slice of
`class Bar { }`, with no colon clause, leaves the list empty. -/
theorem claim3_inheritance_amended (tokens : List String) :
    (addInheritanceToEntityResult tokens).deps
      = (windows tokens).filterMap inheritanceCapture ∧
    (addInheritanceToEntityResult ["class", "Bar", "\x7b", "\x7d"]).deps = [] := by
  constructor
  · show ((windows tokens).foldl inheritanceStep ⟨[], 0, 0⟩).deps = _
    rw [inheritanceScan_foldl]
    simp
  · decide

/-- Claim C4: a failed grammar attempt never escapes an extraction routine:
in each of the three scans every failed attempt is recorded as exactly one
miss, and the scan of any token stream still contributes all recorded results
and counters of every suffix, so one mismatch never aborts the remaining
scanning of the file. -/
theorem claim4_miss_containment (tokens pre post : List String) (ignore : String → Bool) :
    ((addImportsToResult tokens ignore).misses = (windows tokens).countP importMissB ∧
     (addPackageNameToResult tokens).misses = (windows tokens).countP packageMissB ∧
     (addInheritanceToEntityResult tokens).misses
       = (windows tokens).countP inheritanceMissB) ∧
    (∃ l h m, addImportsToResult (pre ++ post) ignore
        = ⟨l ++ (addImportsToResult post ignore).imports,
           h + (addImportsToResult post ignore).hits,
           m + (addImportsToResult post ignore).misses⟩) ∧
    (∃ h m, (addPackageNameToResult (pre ++ post)).hits
          = h + (addPackageNameToResult post).hits ∧
        (addPackageNameToResult (pre ++ post)).misses
          = m + (addPackageNameToResult post).misses) ∧
    (∃ l h m, addInheritanceToEntityResult (pre ++ post)
        = ⟨l ++ (addInheritanceToEntityResult post).deps,
           h + (addInheritanceToEntityResult post).hits,
           m + (addInheritanceToEntityResult post).misses⟩) := by
  refine ⟨⟨?_, ?_, ?_⟩, ?_, ?_, ?_⟩
  · show ((windows tokens).foldl (importStep ignore) ⟨[], 0, 0⟩).misses = _
    rw [importScan_foldl]
    simp
  · show ((windows tokens).foldl packageStep ⟨"", 0, 0⟩).misses = _
    rw [packageScan_foldl]
    simp
  · show ((windows tokens).foldl inheritanceStep ⟨[], 0, 0⟩).misses = _
    rw [inheritanceScan_foldl]
    simp
  · refine ⟨((windows pre).map (fun w => (w.1, w.2 ++ post))).filterMap (importCapture ignore),
      ((windows pre).map (fun w => (w.1, w.2 ++ post))).countP importSuccessB,
      ((windows pre).map (fun w => (w.1, w.2 ++ post))).countP importMissB, ?_⟩
    simp only [addImportsToResult, importScan_foldl, windows_append, List.filterMap_append,
      List.countP_append]
    simp [Nat.add_comm]
  · refine ⟨((windows pre).map (fun w => (w.1, w.2 ++ post))).countP packageSuccessB,
      ((windows pre).map (fun w => (w.1, w.2 ++ post))).countP packageMissB, ?_, ?_⟩
    · simp only [addPackageNameToResult, packageScan_foldl, windows_append,
        List.countP_append]
      simp [Nat.add_comm]
    · simp only [addPackageNameToResult, packageScan_foldl, windows_append,
        List.countP_append]
      simp [Nat.add_comm]
  · refine ⟨((windows pre).map (fun w => (w.1, w.2 ++ post))).filterMap inheritanceCapture,
      ((windows pre).map (fun w => (w.1, w.2 ++ post))).countP inheritanceHitB,
      ((windows pre).map (fun w => (w.1, w.2 ++ post))).countP inheritanceMissB, ?_⟩
    simp only [addInheritanceToEntityResult, inheritanceScan_foldl, windows_append,
      List.filterMap_append, List.countP_append]
    simp [Nat.add_comm]

/-- Claim C5: the entity import list produced by the propagation is an
ordered, duplicate-free sublist of the parent file import list; nothing
absent from the parent list is ever added. -/
theorem claim5_entity_subset_invariant (parentImports entityTokens : List String) :
    (addImportsToEntityResult parentImports entityTokens []).Sublist parentImports ∧
    (addImportsToEntityResult parentImports entityTokens []).Nodup := by
  obtain ⟨t, h1, h2, h3, _⟩ := addImportsToEntityResult_decomp entityTokens parentImports []
  rw [h1]
  simp only [List.nil_append]
  exact ⟨h2, h3⟩

/-- Claim C6: identical unique names silently collide in the results mapping:
an entity `Foo` with empty module name keys as `Foo`, and after two
insertions under that key the mapping holds exactly one entry for it, the
later record, without any collision detection. -/
theorem claim6_silent_overwrite {V : Type} (m : List (String × V)) (v1 v2 : V)
    (name : String) (h : m.countP (fun p => p.1 == name) ≤ 1) :
    createUniqueEntityName "" "Foo" = "Foo" ∧
    (resultsInsert (resultsInsert m name v1) name v2).filter (fun p => p.1 == name)
      = [(name, v2)] := by
  refine ⟨rfl, ?_⟩
  obtain ⟨-, h1⟩ := resultsInsert_filter m name v1 h
  obtain ⟨h2, -⟩ := resultsInsert_filter (resultsInsert m name v1) name v2 h1
  exact h2

/-- Claim C6 witness: a concrete mapping with one unrelated entry, two
insertions under the key Foo, and the resulting single entry for it. -/
theorem claim6_silent_overwrite_witness :
    (([("A", 0)] : List (String × Nat)).countP (fun p => p.1 == "Foo") ≤ 1) ∧
    (createUniqueEntityName "" "Foo" = "Foo" ∧
     (resultsInsert (resultsInsert [("A", 0)] "Foo" 1) "Foo" 2).filter
         (fun p => p.1 == "Foo")
       = [("Foo", 2)]) :=
  ⟨by decide, claim6_silent_overwrite [("A", 0)] 1 2 "Foo" (by decide)⟩

/-- Claim C7: the unique entity name is the module name, a dot and the entity
name when the module name is nonempty, and the bare entity name when the
module name is empty. -/
theorem claim7_unique_name (moduleName entityName : String) :
    (moduleName ≠ "" → createUniqueEntityName moduleName entityName
       = moduleName ++ "." ++ entityName) ∧
    (moduleName = "" → createUniqueEntityName moduleName entityName = entityName) := by
  constructor
  · intro h
    simp [createUniqueEntityName, h]
  · intro h
    simp [createUniqueEntityName, h]

/-- Claim C7 witness: both branches of the unique naming at concrete
names. -/
theorem claim7_unique_name_witness :
    ("com.example" ≠ "" ∧ createUniqueEntityName "com.example" "Bar"
       = "com.example" ++ "." ++ "Bar") ∧
    ("" = "" ∧ createUniqueEntityName "" "Foo" = "Foo") :=
  ⟨⟨by decide, (claim7_unique_name "com.example" "Bar").1 (by decide)⟩,
   ⟨rfl, (claim7_unique_name "" "Foo").2 rfl⟩⟩

/-- Claim C8: a dependency the ignore predicate holds for is never recorded:
it appears neither in the file import list the import scan produces nor in
any entity import list propagated from that file list. -/
theorem claim8_ignored_never_recorded (tokens entityTokens : List String)
    (ignore : String → Bool) (d : String) (h : ignore d = true) :
    d ∉ (addImportsToResult tokens ignore).imports ∧
    d ∉ addImportsToEntityResult (addImportsToResult tokens ignore).imports
        entityTokens [] := by
  have hfile : d ∉ (addImportsToResult tokens ignore).imports := by
    show d ∉ ((windows tokens).foldl (importStep ignore) ⟨[], 0, 0⟩).imports
    rw [importScan_foldl]
    intro hmem
    simp only [List.nil_append] at hmem
    rcases List.mem_filterMap.mp hmem with ⟨w, -, hw⟩
    rw [importCapture_not_ignored ignore w d hw] at h
    cases h
  refine ⟨hfile, fun hmem => ?_⟩
  rcases (addImportsToEntityResult_mem entityTokens _ [] d).mp hmem with h1 | ⟨h2, -⟩
  · cases h1
  · exact hfile h2

/-- Claim C8 witness: a concrete file with one import that the ignore
predicate drops, absent from the file import list and from an entity whose
tokens would otherwise match it. -/
theorem claim8_ignored_never_recorded_witness :
    ((fun s => s == "com.bad.Dep") "com.bad.Dep" = true) ∧
    ("com.bad.Dep" ∉ (addImportsToResult ["import", "com.bad.Dep"]
        (fun s => s == "com.bad.Dep")).imports ∧
     "com.bad.Dep" ∉ addImportsToEntityResult
        (addImportsToResult ["import", "com.bad.Dep"] (fun s => s == "com.bad.Dep")).imports
        ["Dep"] []) :=
  ⟨by decide, claim8_ignored_never_recorded ["import", "com.bad.Dep"] ["Dep"]
    (fun s => s == "com.bad.Dep") "com.bad.Dep" (by decide)⟩

/-- Claim C9: file-level import appends perform no duplicate check: the
file import list is exactly the ordered sequence of all successful
non-ignored captures, so a path occurs in it once per matching statement;
the entity-level list is deduplicated. -/
theorem claim9_duplication_asymmetry (tokens : List String) (ignore : String → Bool)
    (d : String) (parentImports entityTokens : List String) :
    (addImportsToResult tokens ignore).imports
      = (windows tokens).filterMap (importCapture ignore) ∧
    ((addImportsToResult tokens ignore).imports).count d
      = (windows tokens).countP (fun w => importCapture ignore w == some d) ∧
    (addImportsToEntityResult parentImports entityTokens []).Nodup := by
  have himps : (addImportsToResult tokens ignore).imports
      = (windows tokens).filterMap (importCapture ignore) := by
    show ((windows tokens).foldl (importStep ignore) ⟨[], 0, 0⟩).imports = _
    rw [importScan_foldl]
    simp
  refine ⟨himps, ?_, ?_⟩
  · rw [himps, count_filterMap]
  · obtain ⟨t, h1, -, h3, -⟩ := addImportsToEntityResult_decomp entityTokens parentImports []
    rw [h1]
    simpa using h3

/-- Claim C10: the package scan does not stop at a successful match: every
matching package anchor is counted as a hit, the module name is reassigned at
each one, and the final module name is the capture at the last matching
anchor (the initial empty string when no anchor matches). -/
theorem claim10_last_package_wins (tokens : List String) :
    (addPackageNameToResult tokens).moduleName
      = lastCaptureD ((windows tokens).filterMap packageCapture) "" ∧
    (addPackageNameToResult tokens).hits
      = ((windows tokens).filterMap packageCapture).length := by
  constructor
  · show ((windows tokens).foldl packageStep ⟨"", 0, 0⟩).moduleName = _
    rw [packageScan_foldl]
  · show ((windows tokens).foldl packageStep ⟨"", 0, 0⟩).hits = _
    rw [packageScan_foldl]
    simp [package_hits_eq_captures]
